import Mathlib

/-!
Shallow embedding of `src/main.py` (`URLProcessor`), a batch URL-probing tool.
Strings are modelled as `List Char`.  Machinery that lives in third-party
libraries (`requests`/`urllib3` retrying, `bs4` HTML parsing) is modelled from
the specification, and marked as such in the doc comments.
-/

/-- The ASCII whitespace characters stripped by Python's `str.strip()`. -/
def isSpaceChar (c : Char) : Bool :=
  c = ' ' || c = '\t' || c = '\n' || c = '\r' || c = '\x0b' || c = '\x0c'

/-- `str.strip()`: drop whitespace from both ends. -/
def stripL (l : List Char) : List Char :=
  ((l.dropWhile isSpaceChar).reverse.dropWhile isSpaceChar).reverse

/-- `str.lower()` on a single character (ASCII range, as used for header values). -/
def lowerL (l : List Char) : List Char := l.map Char.toLower

/-- A character of the regex class `[a-zA-Z0-9.-]` in `normalize_url`'s pattern. -/
def isClassChar (c : Char) : Bool :=
  c.isAlpha || c.isDigit || c = '.' || c = '-'

/-- The regex tail `[a-zA-Z]{2,}`: the input starts with two alphabetic
characters. -/
def twoAlpha : List Char → Bool
  | b :: d :: _ => b.isAlpha && d.isAlpha
  | _ => false

/-- Backtracking scan for the regex `[a-zA-Z0-9.-]*\.[a-zA-Z]{2,}` (the part of
`normalize_url`'s pattern after its first mandatory class character): at a dot we
may either treat it as the literal separator (requiring two alphabetic characters
next) or keep it inside the leading character class. -/
def domScan : List Char → Bool
  | [] => false
  | c :: rest =>
    if c = '.' then twoAlpha rest || domScan rest
    else isClassChar c && domScan rest

/-- Truthiness of `re.match(r'^[a-zA-Z0-9.-]+\.[a-zA-Z]{2,}', url_line)`
(src/main.py line 58): at least one class character, then a literal dot, then at
least two alphabetic characters, anchored at the start. -/
def domainMatch : List Char → Bool
  | [] => false
  | c :: rest => isClassChar c && domScan rest

/-- `URLProcessor.normalize_url` (src/main.py lines 49-63): strip the line;
empty means rejection (`None`); a scheme-prefixed line is returned unchanged;
a line matching the domain-shape regex gets `https://` prepended; anything else
is rejected. -/
def normalize_url (line : List Char) : Option (List Char) :=
  let url_line := stripL line
  if url_line.isEmpty then none
  else if "http://".data.isPrefixOf url_line || "https://".data.isPrefixOf url_line then
    some url_line
  else if domainMatch url_line then
    some ("https://".data ++ url_line)
  else none

example : normalize_url "example.com".data = some "https://example.com".data := by decide
example : normalize_url "http://x.io".data = some "http://x.io".data := by decide
example : normalize_url "not a url!!".data = none := by decide
example : normalize_url "".data = none := by decide
example : normalize_url "  https://  ".data = some "https://".data := by decide
example : normalize_url "..ab".data = some "https://..ab".data := by decide
example : normalize_url ".ab".data = none := by decide

/-- A Python exception as seen by `process_url`'s two `except` clauses:
`requests.exceptions.RequestException` or any other `Exception`. -/
inductive PyExc where
  | reqExc (msg : String)
  | otherExc (msg : String)
deriving DecidableEq

/-- The message carried by the exception (`str(e)`). -/
def PyExc.msg : PyExc → String
  | .reqExc m => m
  | .otherExc m => m

/-- The parts of a `requests.Response` that `process_url` reads: the final
status code, the `content-type` header (absent modelled as `none`) and the body
bytes. -/
structure Response where
  status : Nat
  contentType : Option (List Char)
  body : List Char
deriving DecidableEq

/-- The `status_code` field of a result dictionary: a numeric HTTP status, or
one of the two failure-marker strings `"请求失败"` / `"处理失败"`. -/
inductive StatusField where
  | code (n : Nat)
  | reqFail
  | procFail
deriving DecidableEq

/-- The dictionary returned by `process_url`. -/
structure ResultRecord where
  url : List Char
  status_code : StatusField
  title : List Char
  success : Bool
deriving DecidableEq

/-- Python's substring test `needle in hay` on strings: `needle` occurs
contiguously somewhere in `hay`. -/
def subOf (needle : List Char) : List Char → Bool
  | [] => needle.isEmpty
  | c :: r => needle.isPrefixOf (c :: r) || subOf needle r

/-- Case-insensitive occurrence test for the opening/closing title tags:
the next `p.length` characters, lowercased, equal `p`. -/
def headLowerIs (p l : List Char) : Bool := lowerL (l.take p.length) == p

/-- A character that may legitimately follow the tag name `title` inside an
opening tag: `>`, whitespace, or `/`. -/
def isTagEnd (c : Char) : Bool := c = '>' || isSpaceChar c || c = '/'

/-- Skip to just past the next `>` (the end of the opening tag). -/
def dropToGt : List Char → List Char
  | [] => []
  | '>' :: r => r
  | _ :: r => dropToGt r

/-- Collect text until a closing `</title` tag (case-insensitive) or the end of
input; `<title>` content is raw text (RCDATA). -/
def takeUntilClose : List Char → List Char
  | [] => []
  | c :: r => if headLowerIs "</title".data (c :: r) then [] else c :: takeUntilClose r

/-- Modelled from the spec: `BeautifulSoup(html_content, 'html.parser')` followed
by `soup.find('title')` — bs4 is a third-party library, absent from src.  Per the
spec the extractor "finds the first `<title>` element in document order" with a
lenient parser; we scan for the first opening `<title` tag (case-insensitive,
followed by `>`, whitespace or `/`), skip the rest of the opening tag, and take
its raw text content up to the closing tag.  `none` means no title element. -/
def findFirstTitle : List Char → Option (List Char)
  | [] => none
  | c :: r =>
    if headLowerIs "<title".data (c :: r)
        && (match r.drop 5 with
            | [] => true
            | d :: _ => isTagEnd d) then
      some (takeUntilClose (dropToGt (r.drop 5)))
    else
      findFirstTitle r

/-- The body of `URLProcessor.extract_title` (src/main.py lines 65-74) as a
function of the parse outcome: an internal parser error is caught and rendered
as `"标题提取失败: " + str(e)`; a found title yields its text stripped; no title
yields the placeholder `"无标题"`. -/
def extract_title_outcome (parsed : Except String (Option (List Char))) : List Char :=
  match parsed with
  | .error e => "标题提取失败: ".data ++ e.data
  | .ok (some t) => stripL t
  | .ok none => "无标题".data

/-- `URLProcessor.extract_title` on an HTML payload, with the parse supplied by
the (spec-modelled, non-failing) `findFirstTitle`. -/
def extract_title (html : List Char) : List Char :=
  extract_title_outcome (.ok (findFirstTitle html))

/-- The `try:` body of `URLProcessor.process_url` (src/main.py lines 78-94):
the fetch outcome is consumed; an exception raised by the fetch propagates out
of the body.  On a response, the content-type header is read (defaulting to the
empty string) and lowercased; `'text/html' in content_type` gates title
extraction; otherwise the title reports非HTML内容 with the content type. -/
def process_url_body (url : List Char) (fetch : Except PyExc Response) :
    Except PyExc ResultRecord :=
  match fetch with
  | .error e => .error e
  | .ok resp =>
    let content_type := lowerL (resp.contentType.getD [])
    let title :=
      if subOf "text/html".data content_type then extract_title resp.body
      else "非HTML内容: ".data ++ content_type
    .ok ⟨url, .code resp.status, title, true⟩

/-- `URLProcessor.process_url` (src/main.py lines 76-109): the `try` body with
its two `except` clauses, each converting the exception into a returned
dictionary with a failure-marker status, an error title and `success = False`. -/
def process_url (url : List Char) (fetch : Except PyExc Response) : ResultRecord :=
  match process_url_body url fetch with
  | .ok r => r
  | .error (.reqExc m) => ⟨url, .reqFail, "错误: ".data ++ m.data, false⟩
  | .error (.otherExc m) => ⟨url, .procFail, "错误: ".data ++ m.data, false⟩

example : extract_title "<html><head><title> Hi </title></head></html>".data = "Hi".data := by
  decide
example : extract_title "<html><body>x</body></html>".data = "无标题".data := by decide
example : extract_title "<TITLE>A</TITLE><title>B</title>".data = "A".data := by decide
example : extract_title "<title></title>".data = [] := by decide
example : extract_title "<titlex>A</titlex>".data = "无标题".data := by decide
example : extract_title "<title lang=\"en\">A</title>".data = "A".data := by decide
example :
    (process_url "https://a.io".data (.ok ⟨200, some "Text/HTML; charset=utf-8".data,
      "<title>T</title>".data⟩)).title = "T".data := by decide
example :
    (process_url "https://a.io".data (.ok ⟨200, some "image/png".data, []⟩)).title
      = "非HTML内容: image/png".data := by decide
example :
    process_url "https://a.io".data (.error (.reqExc "timeout"))
      = ⟨"https://a.io".data, .reqFail, "错误: timeout".data, false⟩ := by decide

/-- One HTTP attempt as the retry machinery sees it: either a response arrived,
or a transient transport error occurred. -/
inductive Attempt where
  | ok (resp : Response)
  | transient (msg : String)
deriving DecidableEq

/-- The `status_forcelist` configured in `URLProcessor.__init__`
(src/main.py line 36). -/
def status_forcelist : List Nat := [429, 500, 502, 503, 504]

/-- An attempt outcome that triggers a retry: a forcelisted status, or a
transient transport error (the request method is always GET, which is in
`allowed_methods`). -/
def isRetryable : Attempt → Bool
  | .ok r => status_forcelist.contains r.status
  | .transient _ => true

/-- Index of the attempt whose outcome is kept: starting at attempt `i` with
`b` retries left, retry while the outcome is retryable and budget remains. -/
def finalAttemptIdx (attempts : Nat → Attempt) : Nat → Nat → Nat
  | i, 0 => i
  | i, b + 1 => if isRetryable (attempts i) then finalAttemptIdx attempts (i + 1) b else i

/-- Modelled from the spec: the retry loop itself lives in `urllib3.util.retry`
(configured in `URLProcessor.__init__`, src/main.py lines 33-42), not in src.
Per the spec, on a retryable outcome the fetch retries up to `retries` times
with backoff, and "after exhausting retries, the last outcome (whatever
status/error it was) is returned".  `attempts n` is the outcome the network
would produce for the `n`-th attempt (0-based). -/
def fetchWithRetry (retries : Nat) (attempts : Nat → Attempt) : Attempt :=
  attempts (finalAttemptIdx attempts 0 retries)

/-- What `session.get` delivers to `process_url` for a given final attempt
outcome: a response, or a raised `RequestException` carrying the error. -/
def attemptResult : Attempt → Except PyExc Response
  | .ok r => .ok r
  | .transient m => .error (.reqExc m)

/-- The retry scenario of the spec's testable property: the first two attempts
answer 503, every later attempt answers 200. -/
def attempts503x2 : Nat → Attempt := fun i =>
  if i < 2 then .ok ⟨503, some "text/html".data, "<html><title>503</title></html>".data⟩
  else .ok ⟨200, some "text/html".data, "<html><title>OK</title></html>".data⟩

/-- The part of `URLProcessor.process_file` (src/main.py lines 111-187) that
decides the run's result: `False` if the file is missing or undecodable in both
attempted encodings; otherwise lines are normalized in order, `False` if none
survives, else every valid URL is processed (via the given fetch outcomes) and
the run returns `True` regardless of the per-URL results. -/
def process_file (fileExists decodeOk : Bool) (lines : List (List Char))
    (fetch : List Char → Except PyExc Response) : Bool × List ResultRecord :=
  if fileExists = false then (false, [])
  else if decodeOk = false then (false, [])
  else
    let valid := lines.filterMap normalize_url
    if valid.isEmpty then (false, [])
    else (true, valid.map fun u => process_url u (fetch u))

/-- `main` (src/main.py lines 189-215): exit status 1 when the input file is
missing or `process_file` reports failure, 0 otherwise. -/
def mainExitCode (fileExists decodeOk : Bool) (lines : List (List Char))
    (fetch : List Char → Except PyExc Response) : Nat :=
  if fileExists = false then 1
  else if (process_file fileExists decodeOk lines fetch).1 then 0 else 1

/-- `result['title'].replace('"', '""')` (src/main.py line 172): double every
double-quote character of the title. -/
def escQ : List Char → List Char
  | [] => []
  | c :: r => if c = '"' then '"' :: '"' :: escQ r else c :: escQ r

/-- The CSV row written per URL (src/main.py line 173):
`f'"{url}","{status_display}","{title_csv}"\n'` — url and status interpolated
verbatim between quotes, only the title passed through `escQ`. -/
def csvRow (url status title : List Char) : List Char :=
  '"' :: url ++ '"' :: ',' :: '"' :: status ++ '"' :: ',' :: '"' :: escQ title ++ ['"', '\n']

/-- Standard (RFC 4180) parse of one quoted field, starting just after the
opening quote: `""` is an escaped literal quote, a lone `"` closes the field.
Returns the decoded field text and the input after the closing quote. -/
def parseQF : List Char → Option (List Char × List Char)
  | [] => none
  | c :: r =>
    if c = '"' then
      match r with
      | r2h :: r2t =>
        if r2h = '"' then (parseQF r2t).map fun p => ('"' :: p.1, p.2)
        else some ([], r2h :: r2t)
      | [] => some ([], [])
    else (parseQF r).map fun p => (c :: p.1, p.2)

/-- Consume the opening quote of a quoted field. -/
def openQuote : List Char → Option (List Char)
  | [] => none
  | c :: r => if c = '"' then some r else none

/-- Consume the comma separating two fields. -/
def sepComma : List Char → Option (List Char)
  | [] => none
  | c :: r => if c = ',' then some r else none

/-- End of a record: nothing left, or a single trailing newline. -/
def rowEnd : List Char → Bool
  | [] => true
  | c :: r => c = '\n' && r.isEmpty

/-- Standard-CSV parse of a three-field record of quoted fields (the shape
`process_file` emits), tolerating a trailing newline.  `none` means the row is
not parseable as such a record. -/
def parseRow3 (cs : List Char) : Option (List Char × List Char × List Char) :=
  match openQuote cs with
  | none => none
  | some r0 =>
    match parseQF r0 with
    | none => none
    | some (f1, r1) =>
      match sepComma r1 with
      | none => none
      | some r1s =>
        match openQuote r1s with
        | none => none
        | some r2 =>
          match parseQF r2 with
          | none => none
          | some (f2, r3) =>
            match sepComma r3 with
            | none => none
            | some r3s =>
              match openQuote r3s with
              | none => none
              | some r4 =>
                match parseQF r4 with
                | none => none
                | some (f3, r5) =>
                  if rowEnd r5 then some (f1, f2, f3) else none

/-- The spec's reading of the domain-shape pattern: one or more characters from
`[a-zA-Z0-9.-]`, then a literal dot, then at least 2 alphabetic characters,
anchored at the start (the rest of the line is unconstrained). -/
def DomainShape (l : List Char) : Prop :=
  ∃ a b c rest, l = a ++ '.' :: b :: c :: rest ∧ a ≠ [] ∧
    (∀ x ∈ a, isClassChar x = true) ∧ b.isAlpha = true ∧ c.isAlpha = true

/-- The spec's reading of the content-type gate: `hay` contains `needle`
case-insensitively, i.e. some contiguous segment of `hay` lowercases to
`needle`. -/
def CIContains (needle hay : List Char) : Prop :=
  ∃ l m r, hay = l ++ m ++ r ∧ lowerL m = needle

example : csvRow "u".data "200".data "a\"b".data = "\"u\",\"200\",\"a\"\"b\"\n".data := by
  decide
example : parseRow3 (csvRow "u".data "200".data "a\"b".data)
    = some ("u".data, "200".data, "a\"b".data) := by decide
example : parseRow3 (csvRow "a\"b".data "200".data "T".data) = none := by decide
example : parseRow3 (csvRow "a\"\"b".data "200".data "T".data)
    = some ("a\"b".data, "200".data, "T".data) := by decide
example : fetchWithRetry 3 (fun i => if i < 2 then .ok ⟨503, none, []⟩ else .ok ⟨200, none, []⟩)
    = .ok ⟨200, none, []⟩ := by decide
example : mainExitCode true true ["example.com".data] (fun _ => .error (.reqExc "down")) = 0 := by
  decide
example : mainExitCode true true ["!!!".data, "  ".data] (fun _ => .error (.reqExc "down")) = 1 := by
  decide

/-! ## Helper lemmas: the domain-shape regex -/

theorem twoAlpha_iff (l : List Char) :
    twoAlpha l = true ↔
      ∃ b d t, l = b :: d :: t ∧ b.isAlpha = true ∧ d.isAlpha = true := by
  rcases l with _ | ⟨b, _ | ⟨d, t⟩⟩ <;> simp [twoAlpha, Bool.and_eq_true]
  exact ⟨fun h => ⟨b, d, ⟨rfl, rfl⟩, h⟩, by rintro ⟨b1, d1, ⟨rfl, rfl⟩, h⟩; exact h⟩

theorem domScan_iff (l : List Char) :
    domScan l = true ↔
      ∃ a b c rest, l = a ++ '.' :: b :: c :: rest ∧
        (∀ x ∈ a, isClassChar x = true) ∧ b.isAlpha = true ∧ c.isAlpha = true := by
  induction l with
  | nil =>
    constructor
    · intro h; simp [domScan] at h
    · rintro ⟨a, b, c, rest, h, -⟩
      cases a <;> simp at h
  | cons c0 r ih =>
    by_cases hc : c0 = '.'
    · subst hc
      rw [domScan, if_pos rfl, Bool.or_eq_true, twoAlpha_iff, ih]
      constructor
      · rintro (⟨b, d, t, hr, hb, hd⟩ | ⟨a, b, c, rest, hr, ha, hb, hcc⟩)
        · exact ⟨[], b, d, t, by rw [hr]; rfl, by simp, hb, hd⟩
        · refine ⟨'.' :: a, b, c, rest, by rw [hr]; rfl, ?_, hb, hcc⟩
          intro x hx
          rcases List.mem_cons.mp hx with rfl | hx
          · decide
          · exact ha x hx
      · rintro ⟨a, b, c, rest, hr, ha, hb, hcc⟩
        cases a with
        | nil =>
          left
          simp only [List.nil_append, List.cons.injEq] at hr
          exact ⟨b, c, rest, hr.2, hb, hcc⟩
        | cons x a' =>
          right
          simp only [List.cons_append, List.cons.injEq] at hr
          exact ⟨a', b, c, rest, hr.2, fun y hy => ha y (List.mem_cons_of_mem x hy), hb, hcc⟩
    · rw [domScan, if_neg hc, Bool.and_eq_true, ih]
      constructor
      · rintro ⟨hcl, a, b, c, rest, hr, ha, hb, hcc⟩
        refine ⟨c0 :: a, b, c, rest, by rw [hr]; rfl, ?_, hb, hcc⟩
        intro x hx
        rcases List.mem_cons.mp hx with rfl | hx
        · exact hcl
        · exact ha x hx
      · rintro ⟨a, b, c, rest, hr, ha, hb, hcc⟩
        cases a with
        | nil =>
          simp only [List.nil_append, List.cons.injEq] at hr
          exact absurd hr.1 hc
        | cons x a' =>
          simp only [List.cons_append, List.cons.injEq] at hr
          obtain ⟨rfl, hr2⟩ := hr
          exact ⟨ha c0 (List.mem_cons_self c0 a'), a', b, c, rest, hr2,
            fun y hy => ha y (List.mem_cons_of_mem c0 hy), hb, hcc⟩

theorem domainMatch_iff (l : List Char) :
    domainMatch l = true ↔ DomainShape l := by
  cases l with
  | nil =>
    constructor
    · intro h; simp [domainMatch] at h
    · rintro ⟨a, b, c, rest, h, -⟩
      cases a <;> simp at h
  | cons c0 r =>
    rw [domainMatch, Bool.and_eq_true, domScan_iff]
    constructor
    · rintro ⟨hcl, a, b, c, rest, hr, ha, hb, hcc⟩
      refine ⟨c0 :: a, b, c, rest, by rw [hr]; rfl, by simp, ?_, hb, hcc⟩
      intro x hx
      rcases List.mem_cons.mp hx with rfl | hx
      · exact hcl
      · exact ha x hx
    · rintro ⟨a, b, c, rest, hr, hne, ha, hb, hcc⟩
      cases a with
      | nil => exact absurd rfl hne
      | cons x a' =>
        simp only [List.cons_append, List.cons.injEq] at hr
        obtain ⟨rfl, hr2⟩ := hr
        exact ⟨ha c0 (List.mem_cons_self c0 a'), a', b, c, rest, hr2,
          fun y hy => ha y (List.mem_cons_of_mem c0 hy), hb, hcc⟩

/-! ## Helper lemmas: substring search and case-insensitive containment -/

theorem subOf_iff (n h : List Char) :
    subOf n h = true ↔ ∃ p s, h = p ++ n ++ s := by
  induction h with
  | nil =>
    rw [subOf, List.isEmpty_iff]
    constructor
    · rintro rfl; exact ⟨[], [], rfl⟩
    · rintro ⟨p, s, hps⟩
      rcases List.append_eq_nil.mp (List.append_eq_nil.mp hps.symm).1 with ⟨-, h2⟩
      exact h2
  | cons c r ih =>
    rw [subOf, Bool.or_eq_true, List.isPrefixOf_iff_prefix, ih]
    constructor
    · rintro (⟨s, hs⟩ | ⟨p, s, hr⟩)
      · exact ⟨[], s, by rw [← hs]; rfl⟩
      · exact ⟨c :: p, s, by rw [hr]; rfl⟩
    · rintro ⟨p, s, hps⟩
      cases p with
      | nil =>
        left
        exact ⟨s, by rw [List.nil_append] at hps; rw [hps]⟩
      | cons x p' =>
        right
        simp only [List.cons_append, List.cons.injEq] at hps
        exact ⟨p', s, hps.2⟩

theorem subOf_lowerL_iff (needle hay : List Char) :
    subOf needle (lowerL hay) = true ↔ CIContains needle hay := by
  rw [subOf_iff]
  constructor
  · rintro ⟨p, s, hps⟩
    rw [List.append_assoc, lowerL, List.map_eq_append_iff] at hps
    obtain ⟨u, v, huv, hu, hv⟩ := hps
    rw [List.map_eq_append_iff] at hv
    obtain ⟨m, w, hmw, hm, hw⟩ := hv
    exact ⟨u, m, w, by rw [huv, hmw, List.append_assoc], hm⟩
  · rintro ⟨l, m, r, hh, hm⟩
    refine ⟨lowerL l, lowerL r, ?_⟩
    rw [hh]
    simp only [lowerL, List.map_append, List.append_assoc] at hm ⊢
    rw [hm]

/-! ## Helper lemmas: the retry loop -/

theorem finalAttemptIdx_spec (attempts : Nat → Attempt) :
    ∀ b i, ∃ d, d ≤ b ∧ finalAttemptIdx attempts i b = i + d ∧
      (∀ j, j < d → isRetryable (attempts (i + j)) = true) ∧
      (d = b ∨ isRetryable (attempts (i + d)) = false) := by
  intro b
  induction b with
  | zero =>
    intro i
    exact ⟨0, Nat.le_refl 0, rfl, fun j hj => absurd hj (Nat.not_lt_zero j), Or.inl rfl⟩
  | succ b ih =>
    intro i
    by_cases hr : isRetryable (attempts i) = true
    · obtain ⟨d, hdb, heq, hall, hlast⟩ := ih (i + 1)
      refine ⟨d + 1, Nat.succ_le_succ hdb, ?_, ?_, ?_⟩
      · rw [finalAttemptIdx, if_pos hr, heq]
        omega
      · intro j hj
        cases j with
        | zero => simpa using hr
        | succ j' =>
          have harg : i + (j' + 1) = (i + 1) + j' := by omega
          rw [harg]
          exact hall j' (by omega)
      · rcases hlast with h | h
        · exact Or.inl (by omega)
        · refine Or.inr ?_
          have harg : i + (d + 1) = (i + 1) + d := by omega
          rw [harg]
          exact h
    · refine ⟨0, Nat.zero_le _, ?_, fun j hj => absurd hj (Nat.not_lt_zero j), Or.inr ?_⟩
      · rw [finalAttemptIdx, if_neg hr]
        omega
      · simpa using Bool.eq_false_iff.mpr hr

/-! ## Helper lemmas: CSV quoting -/

theorem escQ_of_not_mem {u : List Char} (h : '"' ∉ u) : escQ u = u := by
  induction u with
  | nil => rfl
  | cons c r ih =>
    have hc : ¬ c = '"' := fun hh => h (hh ▸ List.mem_cons_self c r)
    rw [escQ, if_neg hc, ih fun hm => h (List.mem_cons_of_mem c hm)]

theorem escQ_count (t : List Char) : (escQ t).count '"' = 2 * t.count '"' := by
  induction t with
  | nil => rfl
  | cons c r ih =>
    by_cases hc : c = '"'
    · subst hc
      rw [escQ, if_pos rfl]
      simp [List.count_cons, ih]
      omega
    · rw [escQ, if_neg hc]
      simp [List.count_cons, hc, ih]


theorem parseQF_cons (c : Char) (r : List Char) :
    parseQF (c :: r) =
      if c = '"' then
        match r with
        | r2h :: r2t =>
          if r2h = '"' then (parseQF r2t).map fun p => ('"' :: p.1, p.2)
          else some ([], r2h :: r2t)
        | [] => some ([], [])
      else (parseQF r).map fun p => (c :: p.1, p.2) := by
  rw [parseQF.eq_def]

theorem parseQF_q_nil : parseQF ['"'] = some ([], []) := by
  rw [parseQF_cons]
  simp

theorem parseQF_qq (r : List Char) :
    parseQF ('"' :: '"' :: r) = (parseQF r).map fun p => ('"' :: p.1, p.2) := by
  rw [parseQF_cons]
  simp

theorem parseQF_q_other {c2 : Char} (h : ¬ c2 = '"') (r : List Char) :
    parseQF ('"' :: c2 :: r) = some ([], c2 :: r) := by
  rw [parseQF_cons]
  simp [h]

theorem parseQF_other {c : Char} (h : ¬ c = '"') (r : List Char) :
    parseQF (c :: r) = (parseQF r).map fun p => (c :: p.1, p.2) := by
  rw [parseQF_cons, if_neg h]

theorem parseQF_escQ (f : List Char) : ∀ r : List Char, r.head? ≠ some '"' →
    parseQF (escQ f ++ '"' :: r) = some (f, r) := by
  induction f with
  | nil =>
    intro r hr
    show parseQF ('"' :: r) = some ([], r)
    cases r with
    | nil => exact parseQF_q_nil
    | cons x r' =>
      have hx : ¬ x = '"' := fun hh => hr (by rw [hh]; rfl)
      exact parseQF_q_other hx r'
  | cons c f' ih =>
    intro r hr
    by_cases hc : c = '"'
    · subst hc
      show parseQF (escQ ('"' :: f') ++ '"' :: r) = some ('"' :: f', r)
      rw [escQ, if_pos rfl]
      show parseQF ('"' :: '"' :: (escQ f' ++ '"' :: r)) = some ('"' :: f', r)
      rw [parseQF_qq, ih r hr]
      rfl
    · show parseQF (escQ (c :: f') ++ '"' :: r) = some (c :: f', r)
      rw [escQ, if_neg hc]
      show parseQF (c :: (escQ f' ++ '"' :: r)) = some (c :: f', r)
      rw [parseQF_other hc, ih r hr]
      rfl

theorem parseQF_inv_aux :
    ∀ (n : Nat) (cs : List Char), cs.length ≤ n → ∀ f r, parseQF cs = some (f, r) →
      cs = escQ f ++ '"' :: r := by
  intro n
  induction n with
  | zero =>
    intro cs hlen f r h
    rw [List.length_eq_zero.mp (Nat.le_zero.mp hlen)] at h
    exact absurd h (by rw [parseQF.eq_def]; exact Option.noConfusion)
  | succ n ih =>
    intro cs hlen f r h
    cases cs with
    | nil => exact absurd h (by rw [parseQF.eq_def]; exact Option.noConfusion)
    | cons c t =>
      by_cases hc : c = '"'
      · subst hc
        cases t with
        | nil =>
          rw [parseQF_q_nil] at h
          injection h with h'
          injection h' with h1 h2
          subst h1; subst h2
          rfl
        | cons r2h r2t =>
          by_cases h2 : r2h = '"'
          · subst h2
            rw [parseQF_qq] at h
            cases hp : parseQF r2t with
            | none => rw [hp] at h; exact absurd h (by exact Option.noConfusion)
            | some p =>
              obtain ⟨p1, p2⟩ := p
              rw [hp] at h
              injection h with h'
              injection h' with h1 hr
              have hrec := ih r2t (by simp at hlen ⊢; omega) p1 p2 hp
              subst hrec
              rw [← h1, ← hr]
              show '"' :: '"' :: (escQ p1 ++ '"' :: p2) = escQ ('"' :: p1) ++ '"' :: p2
              rw [escQ, if_pos rfl]
              rfl
          · rw [parseQF_q_other h2] at h
            injection h with h'
            injection h' with h1 hr
            rw [← h1, ← hr]
            rfl
      · rw [parseQF_other hc] at h
        cases hp : parseQF t with
        | none => rw [hp] at h; exact absurd h (by exact Option.noConfusion)
        | some p =>
          obtain ⟨p1, p2⟩ := p
          rw [hp] at h
          injection h with h'
          injection h' with h1 hr
          have hrec := ih t (by simp at hlen ⊢; omega) p1 p2 hp
          subst hrec
          rw [← h1, ← hr]
          show c :: (escQ p1 ++ '"' :: p2) = escQ (c :: p1) ++ '"' :: p2
          rw [escQ, if_neg hc]
          rfl

theorem parseQF_inv {cs f r : List Char} (h : parseQF cs = some (f, r)) :
    cs = escQ f ++ '"' :: r :=
  parseQF_inv_aux cs.length cs (Nat.le_refl _) f r h

/-- A field containing a double-quote, interpolated verbatim, can never agree
with what a standard CSV parse of the row consumed: `u` followed by its closing
quote and the separating comma cannot equal a run of quotes followed by the
quote-doubled escaping of `u` and a closing quote. -/
theorem escQ_sep_ne :
    ∀ (u s X r : List Char), (∀ c ∈ s, c = '"') → ('"' ∈ u ∨ s ≠ []) →
      u ++ '"' :: ',' :: X ≠ s ++ (escQ u ++ '"' :: r) := by
  intro u
  induction u with
  | nil =>
    intro s X r hs h heq
    rcases h with h | h
    · exact absurd h (List.not_mem_nil '"')
    · cases s with
      | nil => exact h rfl
      | cons e s' =>
        have he : e = '"' := hs e (List.mem_cons_self e s')
        subst he
        simp only [List.nil_append, List.cons_append, List.cons.injEq] at heq
        have heq2 : ',' :: X = s' ++ '"' :: r := by
          have := heq.2
          simpa [escQ] using this
        cases s' with
        | nil => simp at heq2
        | cons e' s'' =>
          have he' : e' = '"' := hs e' (List.mem_cons_of_mem _ (List.mem_cons_self e' s''))
          subst he'
          simp at heq2
  | cons c u' ih =>
    intro s X r hs h heq
    by_cases hc : c = '"'
    · subst hc
      cases s with
      | nil =>
        simp only [List.nil_append, List.cons_append, escQ, if_pos rfl,
          List.cons.injEq, true_and] at heq
        have heq' : u' ++ '"' :: ',' :: X = ['"'] ++ (escQ u' ++ '"' :: r) := by
          simpa using heq
        exact ih ['"'] X r (by simp) (Or.inr (by simp)) heq'
      | cons e s' =>
        have he : e = '"' := hs e (List.mem_cons_self e s')
        subst he
        simp only [List.cons_append, List.cons.injEq, true_and] at heq
        have heq' : u' ++ '"' :: ',' :: X = (s' ++ ['"', '"']) ++ (escQ u' ++ '"' :: r) := by
          rw [heq]
          simp [escQ, List.append_assoc]
        refine ih (s' ++ ['"', '"']) X r ?_ (Or.inr (by simp)) heq'
        intro x hx
        rcases List.mem_append.mp hx with hx | hx
        · exact hs x (List.mem_cons_of_mem _ hx)
        · simpa using hx
    · cases s with
      | nil =>
        have hu' : '"' ∈ u' := by
          rcases h with h | h
          · rcases List.mem_cons.mp h with h | h
            · exact absurd h.symm hc
            · exact h
          · exact absurd rfl h
        simp only [List.nil_append, List.cons_append, escQ, if_neg hc,
          List.cons.injEq, true_and] at heq
        exact ih [] X r (by simp) (Or.inl hu') (by simpa using heq)
      | cons e s' =>
        have he : e = '"' := hs e (List.mem_cons_self e s')
        subst he
        simp only [List.cons_append, List.cons.injEq] at heq
        exact absurd heq.1 hc

theorem openQuote_quote (r : List Char) : openQuote ('"' :: r) = some r := by
  rw [openQuote, if_pos rfl]

theorem sepComma_comma (r : List Char) : sepComma (',' :: r) = some r := by
  rw [sepComma, if_pos rfl]

/-- A row whose URL and status fields are free of double-quotes round-trips
through a standard CSV parse, whatever the title. -/
theorem parseRow3_csvRow (u s t : List Char) (hu : '"' ∉ u) (hs : '"' ∉ s) :
    parseRow3 (csvRow u s t) = some (u, s, t) := by
  have h1 : parseQF (u ++ '"' :: ',' :: '"' :: (s ++ '"' :: ',' :: '"' :: (escQ t ++ '"' :: ['\n'])))
      = some (u, ',' :: '"' :: (s ++ '"' :: ',' :: '"' :: (escQ t ++ '"' :: ['\n']))) := by
    have h := parseQF_escQ u
      (',' :: '"' :: (s ++ '"' :: ',' :: '"' :: (escQ t ++ '"' :: ['\n']))) (by simp)
    rwa [escQ_of_not_mem hu] at h
  have h2 : parseQF (s ++ '"' :: ',' :: '"' :: (escQ t ++ '"' :: ['\n']))
      = some (s, ',' :: '"' :: (escQ t ++ '"' :: ['\n'])) := by
    have h := parseQF_escQ s (',' :: '"' :: (escQ t ++ '"' :: ['\n'])) (by simp)
    rwa [escQ_of_not_mem hs] at h
  have h3 : parseQF (escQ t ++ '"' :: ['\n']) = some (t, ['\n']) :=
    parseQF_escQ t ['\n'] (by simp)
  have hrow : csvRow u s t =
      '"' :: (u ++ '"' :: ',' :: '"' :: (s ++ '"' :: ',' :: '"' :: (escQ t ++ '"' :: ['\n']))) := by
    simp [csvRow]
  rw [hrow]
  simp only [parseRow3, openQuote_quote, h1, h2, h3, sepComma_comma]
  rfl

/-- A row whose URL or status field contains a double-quote never parses back
to the original three field values: the parse either fails or decodes a
different value. -/
theorem parseRow3_csvRow_ne (u s t : List Char) (h : '"' ∈ u ∨ '"' ∈ s) :
    parseRow3 (csvRow u s t) ≠ some (u, s, t) := by
  intro heq
  have hrow : csvRow u s t =
      '"' :: (u ++ '"' :: ',' :: '"' :: (s ++ '"' :: ',' :: '"' :: (escQ t ++ '"' :: ['\n']))) := by
    simp [csvRow]
  rw [hrow] at heq
  by_cases hu : '"' ∈ u
  · simp only [parseRow3, openQuote_quote] at heq
    cases hp : parseQF (u ++ '"' :: ',' :: '"' ::
        (s ++ '"' :: ',' :: '"' :: (escQ t ++ '"' :: ['\n']))) with
    | none => rw [hp] at heq; simp at heq
    | some p =>
      obtain ⟨f1, r1⟩ := p
      rw [hp] at heq
      have hf1 : f1 = u := by
        dsimp only at heq
        repeat' split at heq
        all_goals simp_all
      have hinv := parseQF_inv hp
      rw [hf1] at hinv
      exact escQ_sep_ne u [] ('"' :: (s ++ '"' :: ',' :: '"' :: (escQ t ++ '"' :: ['\n']))) r1
        (by simp) (Or.inl hu) (by simpa using hinv)
  · have hs' : '"' ∈ s := h.resolve_left hu
    have h1 : parseQF (u ++ '"' :: ',' :: '"' ::
        (s ++ '"' :: ',' :: '"' :: (escQ t ++ '"' :: ['\n'])))
        = some (u, ',' :: '"' :: (s ++ '"' :: ',' :: '"' :: (escQ t ++ '"' :: ['\n']))) := by
      have hq := parseQF_escQ u
        (',' :: '"' :: (s ++ '"' :: ',' :: '"' :: (escQ t ++ '"' :: ['\n']))) (by simp)
      rwa [escQ_of_not_mem hu] at hq
    simp only [parseRow3, openQuote_quote, h1, sepComma_comma] at heq
    cases hp : parseQF (s ++ '"' :: ',' :: '"' :: (escQ t ++ '"' :: ['\n'])) with
    | none => rw [hp] at heq; simp at heq
    | some p =>
      obtain ⟨f2, r3⟩ := p
      rw [hp] at heq
      have hf2 : f2 = s := by
        dsimp only at heq
        repeat' split at heq
        all_goals simp_all
      have hinv := parseQF_inv hp
      rw [hf2] at hinv
      exact escQ_sep_ne s [] ('"' :: (escQ t ++ '"' :: ['\n'])) r3
        (by simp) (Or.inl hs') (by simpa using hinv)

/-! ## Helper lemmas: the four branches of normalize_url -/

theorem normalize_url_empty {line : List Char} (h : stripL line = []) :
    normalize_url line = none := by
  simp [normalize_url, h]

theorem normalize_url_scheme {line : List Char}
    (h : "http://".data <+: stripL line ∨ "https://".data <+: stripL line) :
    normalize_url line = some (stripL line) := by
  have hne : (stripL line).isEmpty = false := by
    rcases h with ⟨tail, htail⟩ | ⟨tail, htail⟩ <;> (rw [← htail]; rfl)
  have hpre : ("http://".data.isPrefixOf (stripL line)
      || "https://".data.isPrefixOf (stripL line)) = true := by
    rcases h with h | h
    · simp [List.isPrefixOf_iff_prefix, h]
    · simp [List.isPrefixOf_iff_prefix, h]
  simp [normalize_url, hne, hpre]

theorem normalize_url_domain {line : List Char}
    (h1 : ¬ "http://".data <+: stripL line) (h2 : ¬ "https://".data <+: stripL line)
    (hd : DomainShape (stripL line)) :
    normalize_url line = some ("https://".data ++ stripL line) := by
  have hne : (stripL line).isEmpty = false := by
    obtain ⟨a, b, c, rest, heq, hane, -⟩ := hd
    rw [heq]
    cases a with
    | nil => exact absurd rfl hane
    | cons x a' => rfl
  have hp1 : "http://".data.isPrefixOf (stripL line) = false :=
    Bool.eq_false_iff.mpr fun hx => h1 (List.isPrefixOf_iff_prefix.mp hx)
  have hp2 : "https://".data.isPrefixOf (stripL line) = false :=
    Bool.eq_false_iff.mpr fun hx => h2 (List.isPrefixOf_iff_prefix.mp hx)
  have hdm : domainMatch (stripL line) = true := (domainMatch_iff _).mpr hd
  simp [normalize_url, hne, hp1, hp2, hdm]

theorem normalize_url_reject {line : List Char}
    (h1 : ¬ "http://".data <+: stripL line) (h2 : ¬ "https://".data <+: stripL line)
    (hd : ¬ DomainShape (stripL line)) :
    normalize_url line = none := by
  by_cases hne : (stripL line).isEmpty
  · simp [normalize_url, hne]
  · have hp1 : "http://".data.isPrefixOf (stripL line) = false :=
      Bool.eq_false_iff.mpr fun hx => h1 (List.isPrefixOf_iff_prefix.mp hx)
    have hp2 : "https://".data.isPrefixOf (stripL line) = false :=
      Bool.eq_false_iff.mpr fun hx => h2 (List.isPrefixOf_iff_prefix.mp hx)
    have hdm : domainMatch (stripL line) = false :=
      Bool.eq_false_iff.mpr fun hx => hd ((domainMatch_iff _).mp hx)
    simp [normalize_url, hne, hp1, hp2, hdm]

/-! ## Claim theorems -/

/-- C4: for every input line, `normalize_url` trims surrounding whitespace and
then: yields nothing on empty or whitespace-only input; returns the (trimmed)
line unchanged if it starts with `http://` or `https://`; prepends `https://`
if it matches the domain-shape pattern (one or more characters from
`[a-zA-Z0-9.-]`, a literal dot, then at least 2 alphabetic characters, anchored
at the start); otherwise yields nothing.  In particular
`normalize_url "example.com" = some "https://example.com"`,
`normalize_url "http://x.io"` is unchanged, and `normalize_url "not a url!!"`
and `normalize_url ""` yield nothing. -/
theorem claim_c4 (line : List Char) :
    (stripL line = [] → normalize_url line = none)
  ∧ ("http://".data <+: stripL line ∨ "https://".data <+: stripL line →
      normalize_url line = some (stripL line))
  ∧ (¬ "http://".data <+: stripL line → ¬ "https://".data <+: stripL line →
      DomainShape (stripL line) →
      normalize_url line = some ("https://".data ++ stripL line))
  ∧ (¬ "http://".data <+: stripL line → ¬ "https://".data <+: stripL line →
      ¬ DomainShape (stripL line) → normalize_url line = none)
  ∧ normalize_url "example.com".data = some "https://example.com".data
  ∧ normalize_url "http://x.io".data = some "http://x.io".data
  ∧ normalize_url "not a url!!".data = none
  ∧ normalize_url "".data = none
  ∧ normalize_url " \t ".data = none :=
  ⟨fun h => normalize_url_empty h,
   fun h => normalize_url_scheme h,
   fun h1 h2 hd => normalize_url_domain h1 h2 hd,
   fun h1 h2 hd => normalize_url_reject h1 h2 hd,
   by decide, by decide, by decide, by decide, by decide⟩

theorem claim_c4_witness : normalize_url "   ".data = none :=
  (claim_c4 "   ".data).1 (by decide)

/-- C8 (implicit): for every line whose trimmed form starts with `http://` or
`https://`, `normalize_url` returns exactly the trimmed form with no further
validation; surrounding whitespace is removed even from scheme-prefixed lines,
and the degenerate bare string `https://` is accepted and returned verbatim. -/
theorem claim_c8 (line : List Char)
    (h : "http://".data <+: stripL line ∨ "https://".data <+: stripL line) :
    normalize_url line = some (stripL line)
  ∧ normalize_url "https://".data = some "https://".data
  ∧ normalize_url "  http://x  ".data = some "http://x".data :=
  ⟨normalize_url_scheme h, by decide, by decide⟩

theorem claim_c8_witness : normalize_url " https:// ".data = some "https://".data := by
  have h := (claim_c8 " https:// ".data (Or.inr (by decide))).1
  rw [h]
  decide

/-- C1: `process_url` returns a record with `success = true` iff an HTTP
response was received (any numeric status code); a transport-level failure
(an exception instead of a response) yields `success = false`, a failure-marker
status, and a title embedding the exception message. -/
theorem claim_c1 (url : List Char) (fetch : Except PyExc Response) :
    ((process_url url fetch).success = true ↔ ∃ r, fetch = .ok r)
  ∧ (∀ r, fetch = .ok r → (process_url url fetch).status_code = .code r.status)
  ∧ (∀ e, fetch = .error e →
      (process_url url fetch).success = false
    ∧ ((process_url url fetch).status_code = .reqFail ∨
       (process_url url fetch).status_code = .procFail)
    ∧ (process_url url fetch).title = "错误: ".data ++ e.msg.data) := by
  rcases fetch with e | resp
  · rcases e with m | m <;>
      simp [process_url, process_url_body, PyExc.msg]
  · refine ⟨by simp [process_url, process_url_body], ?_, by simp⟩
    rintro r hr
    injection hr with hr
    subst hr
    simp [process_url, process_url_body]

theorem claim_c1_witness :
    (process_url "https://a.io".data (.error (.reqExc "connection refused"))).success
      = false :=
  ((claim_c1 "https://a.io".data (.error (.reqExc "connection refused"))).2.2
    (.reqExc "connection refused") rfl).1

/-- C3: `process_url` never raises: for every URL and every fetch outcome
(response, transport error, or any other exception) it yields a `ResultRecord`
for that URL; every exception is converted into data (failure title and
`success = false`) rather than escaping. -/
theorem claim_c3 (url : List Char) (fetch : Except PyExc Response) :
    ∃ rec : ResultRecord, process_url url fetch = rec ∧ rec.url = url ∧
      ∀ e, fetch = .error e →
        rec.success = false ∧ rec.title = "错误: ".data ++ e.msg.data := by
  refine ⟨process_url url fetch, rfl, ?_, ?_⟩
  · rcases fetch with e | resp
    · rcases e with m | m <;> simp [process_url, process_url_body]
    · simp [process_url, process_url_body]
  · rintro e rfl
    rcases e with m | m <;> simp [process_url, process_url_body, PyExc.msg]

theorem claim_c3_witness :
    (process_url "https://a.io".data (.error (.otherExc "boom"))).success = false := by
  obtain ⟨rec, h1, -, h3⟩ := claim_c3 "https://a.io".data (.error (.otherExc "boom"))
  rw [h1]
  exact (h3 (.otherExc "boom") rfl).1

/-- C2: under `retries = 3`, a URL whose attempts produce 503, 503, then 200
yields a record with status 200 and `success = true`; more generally the
(spec-modelled) retrying fetch always returns the outcome of the last attempt
made — every earlier attempt was retryable, and it stops at the first
non-retryable outcome or when the retry budget is exhausted — so no exception
propagates to the caller of the fetch. -/
theorem claim_c2 :
    (∀ url : List Char,
      (process_url url (attemptResult (fetchWithRetry 3 attempts503x2))).status_code
          = .code 200
      ∧ (process_url url (attemptResult (fetchWithRetry 3 attempts503x2))).success = true)
  ∧ (∀ (retries : Nat) (attempts : Nat → Attempt), ∃ k, k ≤ retries ∧
      fetchWithRetry retries attempts = attempts k ∧
      (∀ j, j < k → isRetryable (attempts j) = true) ∧
      (k = retries ∨ isRetryable (attempts k) = false)) := by
  constructor
  · intro url
    have hfetch : fetchWithRetry 3 attempts503x2
        = .ok ⟨200, some "text/html".data, "<html><title>OK</title></html>".data⟩ := by
      decide
    rw [hfetch]
    exact ⟨by simp [attemptResult, process_url, process_url_body],
           by simp [attemptResult, process_url, process_url_body]⟩
  · intro retries attempts
    obtain ⟨d, hd, heq, hall, hlast⟩ := finalAttemptIdx_spec attempts retries 0
    refine ⟨d, hd, ?_, ?_, ?_⟩
    · rw [fetchWithRetry, heq]
      simp
    · simpa using hall
    · simpa using hlast

theorem claim_c2_witness :
    (process_url "https://example.com".data
      (attemptResult (fetchWithRetry 3 attempts503x2))).success = true :=
  (claim_c2.1 "https://example.com".data).2

/-- C5: `extract_title` returns the whitespace-trimmed text content of the
first title element in document order; if no title element exists it returns
the fixed placeholder `"无标题"`; and an internal parsing error is not
propagated but rendered as a string embedding the failure description. -/
theorem claim_c5 :
    (∀ e : String, extract_title_outcome (.error e) = "标题提取失败: ".data ++ e.data)
  ∧ (∀ html t, findFirstTitle html = some t → extract_title html = stripL t)
  ∧ (∀ html, findFirstTitle html = none → extract_title html = "无标题".data)
  ∧ extract_title "<html><head><title> Hi </title></head></html>".data = "Hi".data
  ∧ extract_title "<html><body>no title here</body></html>".data = "无标题".data
  ∧ extract_title "<title>A</title><title>B</title>".data = "A".data := by
  refine ⟨fun e => rfl, ?_, ?_, by decide, by decide, by decide⟩
  · intro html t h
    simp [extract_title, h, extract_title_outcome]
  · intro html h
    simp [extract_title, h, extract_title_outcome]

theorem claim_c5_witness : extract_title "<title> Hi </title>".data = "Hi".data := by
  have h := claim_c5.2.1 "<title> Hi </title>".data " Hi ".data (by decide)
  rw [h]
  decide

/-- C9 (implicit): the no-title placeholder is returned only when no title
element is found; a found title whose text is empty or whitespace-only makes
`extract_title` return the empty string, not the placeholder. -/
theorem claim_c9 (html t : List Char) (h1 : findFirstTitle html = some t)
    (h2 : stripL t = []) :
    extract_title html = [] ∧ extract_title html ≠ "无标题".data := by
  have h : extract_title html = stripL t := by
    simp [extract_title, h1, extract_title_outcome]
  rw [h, h2]
  exact ⟨rfl, by decide⟩

theorem claim_c9_witness :
    extract_title "<title></title>".data = []
  ∧ extract_title "<title>   </title>".data = [] :=
  ⟨(claim_c9 "<title></title>".data [] (by decide) (by decide)).1,
   (claim_c9 "<title>   </title>".data "   ".data (by decide) (by decide)).1⟩

/-- C6: for a completed fetch, the title extractor is applied to the body iff
the content-type header contains `"text/html"` case-insensitively; otherwise
the record's title is `"非HTML内容: "` followed by the lowercased content-type
value, and the extractor's output plays no part. -/
theorem claim_c6 (url : List Char) (status : Nat) (ct body : List Char) :
    (CIContains "text/html".data ct →
      (process_url url (.ok ⟨status, some ct, body⟩)).title = extract_title body)
  ∧ (¬ CIContains "text/html".data ct →
      (process_url url (.ok ⟨status, some ct, body⟩)).title
        = "非HTML内容: ".data ++ lowerL ct) := by
  constructor
  · intro h
    have hb : subOf "text/html".data (lowerL ct) = true := (subOf_lowerL_iff _ _).mpr h
    simp [process_url, process_url_body, hb]
  · intro h
    have hb : subOf "text/html".data (lowerL ct) = false :=
      Bool.eq_false_iff.mpr fun hx => h ((subOf_lowerL_iff _ _).mp hx)
    simp [process_url, process_url_body, hb]

theorem claim_c6_witness :
    (process_url "https://a.io".data
      (.ok ⟨200, some "TEXT/HTML; charset=gbk".data, "<title>你好</title>".data⟩)).title
      = extract_title "<title>你好</title>".data :=
  (claim_c6 "https://a.io".data 200 "TEXT/HTML; charset=gbk".data
      "<title>你好</title>".data).1
    ⟨[], "TEXT/HTML".data, "; charset=gbk".data, by decide, by decide⟩

/-- C7: with the input file present and decodable, the run exits non-zero iff
no input line normalizes; when at least one line normalizes the exit code is 0
for every possible fetch behaviour — in particular a run whose only URL fails
at transport level still exits 0 while all its records report failure. -/
theorem claim_c7 (lines : List (List Char)) (fetch : List Char → Except PyExc Response) :
    mainExitCode true true lines fetch
      = (if (lines.filterMap normalize_url).isEmpty then 1 else 0)
  ∧ mainExitCode true true ["example.com".data]
      (fun _ => .error (.reqExc "connection refused")) = 0
  ∧ ((process_file true true ["example.com".data]
      (fun _ => .error (.reqExc "connection refused"))).2.all fun r => !r.success) = true
  ∧ mainExitCode true true ["   ".data, "not a url!!".data] fetch = 1 := by
  refine ⟨?_, by decide, by decide, ?_⟩
  · by_cases h : (lines.filterMap normalize_url).isEmpty
    · simp [mainExitCode, process_file, h]
    · simp [mainExitCode, process_file, h]
  · have h : (["   ".data, "not a url!!".data] : List (List Char)).filterMap normalize_url
        = [] := by decide
    simp [mainExitCode, process_file, h]

/-- C10 counterexample: the claim says a row whose URL contains a double-quote
character is never standard-CSV parseable, but the URL `a""b` contains
double-quotes and its emitted row parses fine (to a different URL value). -/
theorem claim_c10_counterexample :
    '"' ∈ "a\"\"b".data
  ∧ parseRow3 (csvRow "a\"\"b".data "200".data "ok".data)
      = some ("a\"b".data, "200".data, "ok".data) :=
  ⟨by decide, by decide⟩

/-- C10 (amended): in each written CSV row only the title field has its
double-quote characters doubled, while URL and status are interpolated
verbatim; consequently a row whose URL and status are quote-free parses back to
exactly the original three fields (for any title), whereas a URL or status
containing a double-quote makes the row either unparseable as standard CSV or
parseable only to field values different from the originals. -/
theorem claim_c10_amended (u s t : List Char) :
    ((escQ t).count '"' = 2 * t.count '"')
  ∧ ('"' ∉ u → '"' ∉ s → parseRow3 (csvRow u s t) = some (u, s, t))
  ∧ ('"' ∈ u ∨ '"' ∈ s → parseRow3 (csvRow u s t) ≠ some (u, s, t)) :=
  ⟨escQ_count t,
   fun hu hs => parseRow3_csvRow u s t hu hs,
   fun h => parseRow3_csvRow_ne u s t h⟩

theorem claim_c10_witness :
    parseRow3 (csvRow "u1".data "200".data "a\"b".data)
      = some ("u1".data, "200".data, "a\"b".data)
  ∧ parseRow3 (csvRow "x\"y".data "200".data "ok".data)
      ≠ some ("x\"y".data, "200".data, "ok".data) :=
  ⟨(claim_c10_amended "u1".data "200".data "a\"b".data).2.1 (by decide) (by decide),
   (claim_c10_amended "x\"y".data "200".data "ok".data).2.2 (Or.inl (by decide))⟩
